import Mathlib

/-!
Verification of the strawberry synthetic-dataset checking scripts.

The definitions below are shallow embeddings of the Python scripts under
`Scripts/`:

* `decodePixel`, `scanStep`, `scanMask` embed the per-pixel decoding loop of
  `comprehensive_check.py` (`verify_dataset`, verification 1): BGR pixels are
  decoded to `(object_type, instance_id)` keys, background `(0,0,0)` is
  skipped, a first-seen color map, per-object pixel counts and decode faults
  are accumulated.
* `bijectionOK`, `channelSepOK`, `thresholdViolations`, `idOffsetCheck`,
  `runChecks` embed verifications 1-5 and the final summary of
  `comprehensive_check.py`.
* `find_matching_pairs` and `pairedCount` embed the two pairing computations
  (`test_dataset_functions.py` and verification 3 of `comprehensive_check.py`).
* `verifyIncremental` embeds the post-parse reconciliation loops of
  `verify_incremental_metadata.py`.
* `splitFile` embeds the chunking loop of `split_dataset.py`; `joinParts`
  embeds the sequential recombination of `verify_split.py`.
-/

namespace Strawberry

/-- A BGR pixel: three 8-bit channels as read by `cv2.imread`
(`b, g, r = mask[y, x]`). Channel values are modelled as naturals; no claim
depends on the 256 bound. -/
structure Pixel where
  b : Nat
  g : Nat
  r : Nat
deriving DecidableEq, Repr

/-- The four object types of the dataset (categories 0,1,2 are strawberries,
category 3 is the peduncle). -/
inductive ObjType where
  | ripe
  | unripe
  | halfRipe
  | peduncle
deriving DecidableEq, Repr

/-- An object key as built by the scan loop: `(obj_type, obj_id)`. -/
abbrev ObjKey := ObjType × Nat

/-- Result of decoding one pixel in the scan loop of `comprehensive_check.py`. -/
inductive DecodeResult where
  /-- `b == 0 and g == 0 and r == 0`: the pixel is skipped. -/
  | background
  /-- A decoded `(obj_type, obj_id)` key. -/
  | obj (key : ObjKey)
  /-- `B` outside `{0,1,2,3}`: the "INVALID category" branch. -/
  | invalid (b : Nat)
deriving DecidableEq, Repr

/-- Decoding of one pixel, following the branch order of
`comprehensive_check.py` lines 45-59: background first, then `b == 3`
(peduncle, id in G), then `b in [0,1,2]` (strawberry, id in R), else invalid. -/
def decodePixel (p : Pixel) : DecodeResult :=
  if p.b = 0 ∧ p.g = 0 ∧ p.r = 0 then .background
  else if p.b = 3 then .obj (.peduncle, p.g)
  else if p.b = 0 then .obj (.ripe, p.r)
  else if p.b = 1 then .obj (.unripe, p.r)
  else if p.b = 2 then .obj (.halfRipe, p.r)
  else .invalid p.b

/-- The instance map of `visualize_sample.py` line 56 (encoding B):
`np.where(mask_b == 3, mask_g, mask_r)`; value 0 is filtered out as
background (`unique_ids > 0`). -/
def instanceMapValue (p : Pixel) : Nat :=
  if p.b = 3 then p.g else p.r

/-- A pixel together with its coordinates, as visited by the scan loop
(`for y ...: for x ...`). -/
structure PixelAt where
  x : Nat
  y : Nat
  px : Pixel
deriving DecidableEq, Repr

/-- Association-list lookup modelling Python dict lookup (`d[k]`, `k in d`);
keys in the lists built below are unique, so first-match lookup agrees with
dict semantics. -/
def alookup {α β : Type} [DecidableEq α] (a : α) : List (α × β) → Option β
  | [] => none
  | (k, v) :: rest => if k = a then some v else alookup a rest

/-- `object_pixels[object_key] += 1` on a `defaultdict(int)`: increment the
entry if present, otherwise append it with count 1. -/
def bumpCount (k : ObjKey) : List (ObjKey × Nat) → List (ObjKey × Nat)
  | [] => [(k, 1)]
  | (k', n) :: rest =>
    if k' = k then (k', n + 1) :: rest else (k', n) :: bumpCount k rest

/-- The accumulators of the scan loop of `comprehensive_check.py` lines 38-67:
`color_map`, `object_pixels`, the printed decode faults, and the printed
per-pixel bijection-violation reports. -/
structure ScanState where
  colorMap : List (Pixel × ObjKey)
  objectPixels : List (ObjKey × Nat)
  faults : List (Nat × Nat × Nat)
  bijectionReports : List (Pixel × ObjKey × ObjKey)
deriving DecidableEq, Repr

/-- The empty accumulators before the scan loop starts. -/
def initState : ScanState := ⟨[], [], [], []⟩

/-- One iteration of the scan loop body (`comprehensive_check.py` lines
43-67): skip background, record invalid categories as faults, otherwise bump
the object's pixel count and record the first-seen color binding (reporting a
violation if the color was already bound to a different key). -/
def scanStep (s : ScanState) (p : PixelAt) : ScanState :=
  match decodePixel p.px with
  | .background => s
  | .invalid b => { s with faults := s.faults ++ [(p.x, p.y, b)] }
  | .obj key =>
    let s1 := { s with objectPixels := bumpCount key s.objectPixels }
    match alookup p.px s1.colorMap with
    | none => { s1 with colorMap := s1.colorMap ++ [(p.px, key)] }
    | some k0 =>
      if k0 = key then s1
      else { s1 with bijectionReports := s1.bijectionReports ++ [(p.px, k0, key)] }

/-- The whole scan: fold the loop body over the pixels in visit order. -/
def scanMask (ps : List PixelAt) : ScanState :=
  ps.foldl scanStep initState

/-- The row-major pixel enumeration of the scan loop
(`for y in range(height): for x in range(width)`). -/
def maskPixels (mask : Nat → Nat → Pixel) (height width : Nat) : List PixelAt :=
  (List.range height).flatMap fun y =>
    (List.range width).map fun x => ⟨x, y, mask y x⟩

/-- The distinct decoded object keys: `object_pixels.keys()`. -/
def objectKeys (s : ScanState) : List ObjKey :=
  s.objectPixels.map Prod.fst

/-- The distinct recorded colors: `color_map.keys()`. -/
def maskColors (s : ScanState) : List Pixel :=
  s.colorMap.map Prod.fst

/-- `object_pixels[k]` with the `defaultdict(int)` default. -/
def countOf (m : List (ObjKey × Nat)) (k : ObjKey) : Nat :=
  (alookup k m).getD 0

/-- The post-scan bijection check of `comprehensive_check.py` lines 73-76:
`len(color_map) == len(object_pixels)`. -/
def bijectionOK (s : ScanState) : Bool :=
  s.colorMap.length == s.objectPixels.length

/-- The decoded key of a visited pixel, when it decodes to an object. -/
def colorKey? (c : Pixel) : Option ObjKey :=
  match decodePixel c with
  | .obj k => some k
  | _ => none

/-- The decoded key of a visited pixel, when it decodes to an object. -/
def decodedKey? (p : PixelAt) : Option ObjKey :=
  colorKey? p.px

/-- The pixel's color when it decodes to an object (the colors that the scan
records in `color_map`). -/
def decodableColor? (p : PixelAt) : Option Pixel :=
  match decodePixel p.px with
  | .obj _ => some p.px
  | _ => none

/-- The decode fault emitted for a pixel, if any: the
`⚠️ INVALID category: B=... at (x, y)` report. -/
def faultOf? (p : PixelAt) : Option (Nat × Nat × Nat) :=
  match decodePixel p.px with
  | .invalid b => some (p.x, p.y, b)
  | _ => none

/-- Total version of `colorKey?` used to state the color→key image relation. -/
def totalColorKey (c : Pixel) : ObjKey :=
  (colorKey? c).getD (.ripe, 0)

/-- An annotation record, with the fields the scripts read
(`image_id`, `instance_id`, `category_id`, `area`, `parent_id`). -/
structure Ann where
  image_id : Nat
  instance_id : Nat
  category_id : Nat
  area : Nat
  parent_id : Nat
deriving DecidableEq, Repr

/-- The threshold-violation list of `comprehensive_check.py` lines 170-174:
annotation records with `area < 15`, reported as
`(instance_id, category_id, area)`. -/
def thresholdViolations (anns : List Ann) : List (Nat × Nat × Nat) :=
  anns.filterMap fun a =>
    if a.area < 15 then some (a.instance_id, a.category_id, a.area) else none

/-- The `"Threshold Applied"` entry of the final checks dict:
`len(violations) == 0`. -/
def thresholdCheckPassed (anns : List Ann) : Bool :=
  (thresholdViolations anns).length == 0

/-- Category id → object type, as in `comprehensive_check.py` lines 159-162
(`["ripe", "unripe", "half_ripe"][category_id]`, which fails for ids above 3,
modelled as `none`). -/
def catName? (c : Nat) : Option ObjType :=
  if c = 3 then some .peduncle
  else if c = 0 then some .ripe
  else if c = 1 then some .unripe
  else if c = 2 then some .halfRipe
  else none

/-- The `json_objects` set of `comprehensive_check.py` lines 157-163: the
object keys named by the annotation records. -/
def jsonObjects (anns : List Ann) : List ObjKey :=
  anns.filterMap fun a => (catName? a.category_id).map fun t => (t, a.instance_id)

/-- The threshold-consistency condition exactly as the claim states it (three
conditions: all areas ≥ 15, sub-threshold mask objects absent from the
annotations, at-threshold mask objects present). Stated from the claim's
words so it can be compared with what the code actually checks. -/
def claimedThresholdConsistent (s : ScanState) (anns : List Ann) : Prop :=
  (∀ a ∈ anns, 15 ≤ a.area) ∧
  (∀ k ∈ objectKeys s, countOf s.objectPixels k < 15 → k ∉ jsonObjects anns) ∧
  (∀ k ∈ objectKeys s, 15 ≤ countOf s.objectPixels k → k ∈ jsonObjects anns)

/-- `get_annotations_for_image` of `test_dataset_functions.py` line 25. -/
def get_annotations_for_image (annotations : List Ann) (image_id : Nat) : List Ann :=
  annotations.filter fun a => a.image_id == image_id

/-- `category_id in [0, 1, 2]`: a strawberry (primary) record. -/
def isStrawberryCat (c : Nat) : Bool :=
  c == 0 || c == 1 || c == 2

/-- The strawberry records of one image (`find_matching_pairs` line 121). -/
def strawberriesOf (annotations : List Ann) (image_id : Nat) : List Ann :=
  (get_annotations_for_image annotations image_id).filter fun a =>
    isStrawberryCat a.category_id

/-- The peduncle records of one image (`find_matching_pairs` line 122). -/
def pedunclesOf (annotations : List Ann) (image_id : Nat) : List Ann :=
  (get_annotations_for_image annotations image_id).filter fun a =>
    a.category_id == 3

/-- `peduncle_map = {p["instance_id"]: p for p in peduncles}` followed by a
lookup: dict comprehensions keep the last record for a duplicated key. -/
def pedLookup (peduncles : List Ann) (i : Nat) : Option Ann :=
  (peduncles.filter fun p => p.instance_id == i).getLast?

/-- `find_matching_pairs` of `test_dataset_functions.py` lines 119-129: each
strawberry is paired with the peduncle whose `instance_id` equals the
strawberry's `parent_id`, within the same image. -/
def find_matching_pairs (annotations : List Ann) (image_id : Nat) :
    List (Ann × Ann) :=
  (strawberriesOf annotations image_id).filterMap fun s =>
    (pedLookup (pedunclesOf annotations image_id) s.parent_id).map fun p => (s, p)

/-- The records sharing one `instance_id` (the `by_instance` grouping of
`comprehensive_check.py` lines 122-124). -/
def instanceGroup (anns : List Ann) (i : Nat) : List Ann :=
  anns.filter fun a => a.instance_id == i

/-- `any(c in [0, 1, 2] for c in cats)` over one instance group. -/
def hasStrawberry (g : List Ann) : Bool :=
  g.any fun o => isStrawberryCat o.category_id

/-- `3 in cats` over one instance group. -/
def hasPeduncle (g : List Ann) : Bool :=
  g.any fun o => o.category_id == 3

/-- The distinct instance ids of one image's records (the keys of
`by_instance`). -/
def instanceIds (anns : List Ann) : List Nat :=
  (anns.map fun a => a.instance_id).dedup

/-- `paired_count` of `comprehensive_check.py` lines 129-143: instance ids
whose records include both a strawberry and a peduncle category. -/
def pairedCount (anns : List Ann) : Nat :=
  (instanceIds anns).countP fun i =>
    hasStrawberry (instanceGroup anns i) && hasPeduncle (instanceGroup anns i)

/-- `strawberry_only` of `comprehensive_check.py` lines 129-143. -/
def strawberryOnlyCount (anns : List Ann) : Nat :=
  (instanceIds anns).countP fun i =>
    hasStrawberry (instanceGroup anns i) && !hasPeduncle (instanceGroup anns i)

/-- `peduncle_only` of `comprehensive_check.py` lines 129-143. -/
def peduncleOnlyCount (anns : List Ann) : Nat :=
  (instanceIds anns).countP fun i =>
    !hasStrawberry (instanceGroup anns i) && hasPeduncle (instanceGroup anns i)

/-- The ids of all decoded objects (`all_ids` of `comprehensive_check.py`
line 201). -/
def allIds (m : List (ObjKey × Nat)) : List Nat :=
  m.map fun e => e.1.2

/-- The ID-offset check of `comprehensive_check.py` lines 201-235:
`min(all_ids)` raises `ValueError` on an empty collection (modelled as
`none`); otherwise the check is `min_id >= 1 and not has_zero`. -/
def idOffsetCheck (m : List (ObjKey × Nat)) : Option Bool :=
  match (allIds m).min? with
  | none => none
  | some minId => some (decide (1 ≤ minId) && !(m.any fun e => e.1.2 == 0))

/-- Strawberry object types. -/
def isStrawbType : ObjType → Bool
  | .peduncle => false
  | _ => true

/-- `strawberry_colors` of `comprehensive_check.py` line 92. -/
def strawberryColors (s : ScanState) : List Pixel :=
  (s.colorMap.filter fun e => isStrawbType e.2.1).map Prod.fst

/-- `peduncle_colors` of `comprehensive_check.py` line 93. -/
def peduncleColors (s : ScanState) : List Pixel :=
  (s.colorMap.filter fun e => e.2.1 == ObjType.peduncle).map Prod.fst

/-- `max(xs if xs else [0])` over naturals. -/
def maxOfList (xs : List Nat) : Nat :=
  xs.foldl max 0

/-- The `"Channel Separation"` entry of the final checks dict
(`comprehensive_check.py` line 233). -/
def channelSepOK (s : ScanState) : Bool :=
  maxOfList ((strawberryColors s).map fun c => c.g) == 0 &&
  maxOfList ((peduncleColors s).map fun c => c.r) == 0

/-- The final checks dict of `comprehensive_check.py` lines 230-236. -/
structure CheckResults where
  rgbEncoding : Bool
  bijection : Bool
  channelSeparation : Bool
  thresholdApplied : Bool
  idOffset : Bool
deriving DecidableEq, Repr

/-- The whole `verify_dataset` run of `comprehensive_check.py` on one image's
pixels and annotation records: verification 5 computes `min(all_ids)`, which
raises on an empty collection and aborts the run before the final summary
(modelled as `none`). -/
def runChecks (ps : List PixelAt) (anns : List Ann) : Option CheckResults :=
  let s := scanMask ps
  match idOffsetCheck s.objectPixels with
  | none => none
  | some idOk => some
    { rgbEncoding := bijectionOK s
      bijection := bijectionOK s
      channelSeparation := channelSepOK s
      thresholdApplied := thresholdCheckPassed anns
      idOffset := idOk }

/-- A parsed depth-range record (`depth_range` with `min_meters` and
`max_meters`), with exact rationals standing in for the JSON numbers. -/
structure DepthRange where
  min_meters : ℚ
  max_meters : ℚ
deriving DecidableEq, Repr

/-- The error reports of `verify_incremental_metadata.py`, one constructor
per distinct error string appended to `errors`. -/
inductive VerifyError where
  | countMismatch (annCount masterCount : Nat)
  | notInMaster (imageName : String)
  | dataMismatch (imageName : String) (tempMin masterMin : ℚ)
  | missingShard (imageName : String)
deriving DecidableEq, Repr

/-- The numeric tolerance `0.0001` of `verify_incremental_metadata.py`
line 65. -/
def tolerance : ℚ :=
  1 / 10000

/-- The image-count comparison of `verify_incremental_metadata.py` lines
40-41. -/
def countError (annImages : Nat) (master : List (String × DepthRange)) :
    List VerifyError :=
  if annImages ≠ master.length then [.countMismatch annImages master.length]
  else []

/-- The per-shard loop of `verify_incremental_metadata.py` lines 47-66.
Shards are keyed here by the image name they denote; the
`..._meta.json` ↔ `....png` filename renaming of lines 50 and 70 is a
bijective I/O naming convention applied at the filesystem boundary. -/
def shardErrors (shards master : List (String × DepthRange)) :
    List VerifyError :=
  shards.flatMap fun sh =>
    match alookup sh.1 master with
    | none => [.notInMaster sh.1]
    | some m =>
      if tolerance < |sh.2.min_meters - m.min_meters| then
        [.dataMismatch sh.1 sh.2.min_meters m.min_meters]
      else []

/-- The per-master-entry loop of `verify_incremental_metadata.py` lines
68-74: every master entry must have a shard. -/
def masterErrors (shards master : List (String × DepthRange)) :
    List VerifyError :=
  master.filterMap fun e =>
    if e.1 ∈ shards.map Prod.fst then none else some (.missingShard e.1)

/-- The full error list accumulated by `verify_dataset` of
`verify_incremental_metadata.py` (after the input files parsed): the count
check, then the shard loop, then the master loop; no loop stops early. -/
def verifyIncremental (shards master : List (String × DepthRange))
    (annImages : Nat) : List VerifyError :=
  countError annImages master ++ shardErrors shards master ++
    masterErrors shards master

/-- The reconciliation condition exactly as the claim states it: both
`min_meters` and `max_meters` of each shard must match its master entry
within the tolerance. Stated from the claim's words so it can be compared
with what the code actually checks. -/
def claimedReconcilerOK (shards master : List (String × DepthRange))
    (annImages : Nat) : Bool :=
  (shards.all fun sh =>
    match alookup sh.1 master with
    | none => false
    | some m =>
      decide (|sh.2.min_meters - m.min_meters| ≤ tolerance) &&
      decide (|sh.2.max_meters - m.max_meters| ≤ tolerance)) &&
  (master.all fun e => (shards.map Prod.fst).contains e.1) &&
  annImages == master.length

/-- A byte of the archive being split. -/
abbrev Byte := Nat

/-- The chunking loop of `split_dataset.py` lines 11-23: repeatedly read up
to `chunkSize` bytes and emit them as the next part; `f.read(0)` returns an
empty chunk at once, so a zero chunk size emits no parts. -/
def splitFile (chunkSize : Nat) (data : List Byte) : List (List Byte) :=
  if h : chunkSize = 0 ∨ data = [] then []
  else data.take chunkSize :: splitFile chunkSize (data.drop chunkSize)
termination_by data.length
decreasing_by
  rcases not_or.mp h with ⟨hc, hd⟩
  have hlen : 0 < data.length := List.length_pos.mpr hd
  simp only [List.length_drop]
  omega

/-- The recombination loop of `verify_split.py` lines 24-28: write the parts
to the output one after another, in ascending part-number order. -/
def joinParts (parts : List (List Byte)) : List Byte :=
  parts.foldl (· ++ ·) []

/-- Concrete per-image annotation lists for the pairing scenario of the
claim: a strawberry with `parent_id = 7` and a peduncle with
`instance_id = 7` (the strawberry's own `instance_id` is 1). -/
def pairScenario : List Ann :=
  [⟨1, 1, 0, 20, 7⟩, ⟨1, 7, 3, 20, 0⟩]

/-- The pairing scenario with the peduncle record removed. -/
def pairScenarioNoPed : List Ann :=
  [⟨1, 1, 0, 20, 7⟩]

/-- The pairing scenario where the strawberry's `instance_id` coincides with
the peduncle's. -/
def pairScenarioShared : List Ann :=
  [⟨1, 7, 0, 20, 7⟩, ⟨1, 7, 3, 20, 0⟩]

/-- Twenty pixels of the color `(0,0,1)`, which decodes to `(ripe, 1)`. -/
def ripe20Pixels : List PixelAt :=
  (List.range 20).map fun i => ⟨i, 0, ⟨0, 0, 1⟩⟩

/-- An annotation record with a sub-threshold area. -/
def lowAreaAnn : Ann :=
  ⟨1, 2, 0, 10, 0⟩

/-- A master metadata mapping and shard list whose minimum depths agree but
whose maximum depths differ wildly. -/
def shardsMinOnly : List (String × DepthRange) :=
  [("00001.png", ⟨1, 5⟩)]

/-- The master entry paired with `shardsMinOnly`. -/
def masterMinOnly : List (String × DepthRange) :=
  [("00001.png", ⟨1, 999⟩)]

/-- A master mapping with an entry that has no shard. -/
def masterNoShard : List (String × DepthRange) :=
  [("00002.png", ⟨1, 1⟩)]

/-- Two pixels with distinct colors that decode to the same key
`(peduncle, 5)`: the R channel is ignored for peduncle pixels. -/
def bijPixels : List PixelAt :=
  [⟨0, 0, ⟨3, 5, 0⟩⟩, ⟨1, 0, ⟨3, 5, 7⟩⟩]

/-- A two-pixel mask in one visit order. -/
def permPixelsA : List PixelAt :=
  [⟨0, 0, ⟨3, 5, 0⟩⟩, ⟨1, 0, ⟨0, 0, 2⟩⟩]

/-- The same two pixels in the other visit order. -/
def permPixelsB : List PixelAt :=
  [⟨1, 0, ⟨0, 0, 2⟩⟩, ⟨0, 0, ⟨3, 5, 0⟩⟩]

/-- A pixel whose category channel is invalid (`B = 7`). -/
def faultPixel : PixelAt :=
  ⟨2, 3, ⟨7, 0, 0⟩⟩

/-- A pixel that decodes to instance id 0: color `(1,0,0)` is `(unripe, 0)`. -/
def zeroIdPixels : List PixelAt :=
  [⟨0, 0, ⟨1, 0, 0⟩⟩]

/-- A mask consisting of a single background pixel. -/
def bgPixels : List PixelAt :=
  [⟨0, 0, ⟨0, 0, 0⟩⟩]

/-! ### C5: background reservation -/

/-- C5: decoding pixel `(0,0,0)` yields background under both encodings
(the scan loop of `comprehensive_check.py` and the instance map of
`visualize_sample.py`, where 0 is the filtered background value), and every
non-`(0,0,0)` pixel whose category channel `B` lies in `{0,1,2,3}` decodes to
some `(object_type, instance_id)` key. -/
theorem background_reserved_and_valid_pixels_decode :
    decodePixel ⟨0, 0, 0⟩ = .background ∧
    instanceMapValue ⟨0, 0, 0⟩ = 0 ∧
    (∀ p : Pixel, ¬(p.b = 0 ∧ p.g = 0 ∧ p.r = 0) →
      (p.b = 0 ∨ p.b = 1 ∨ p.b = 2 ∨ p.b = 3) →
      ∃ k : ObjKey, decodePixel p = .obj k) := by
  refine ⟨rfl, rfl, ?_⟩
  intro p hbg hvalid
  unfold decodePixel
  rcases hvalid with h0 | h1 | h2 | h3
  · rw [if_neg hbg, if_neg (by omega), if_pos h0]
    exact ⟨(.ripe, p.r), rfl⟩
  · rw [if_neg hbg, if_neg (by omega), if_neg (by omega), if_pos h1]
    exact ⟨(.unripe, p.r), rfl⟩
  · rw [if_neg hbg, if_neg (by omega), if_neg (by omega), if_neg (by omega),
      if_pos h2]
    exact ⟨(.halfRipe, p.r), rfl⟩
  · rw [if_neg hbg, if_pos h3]
    exact ⟨(.peduncle, p.g), rfl⟩

/-- Witness for C5 at the concrete pixel `(3,5,0)` (a peduncle pixel). -/
theorem background_reserved_witness :
    ¬((3 : Nat) = 0 ∧ (5 : Nat) = 0 ∧ (0 : Nat) = 0) ∧
    ∃ k : ObjKey, decodePixel ⟨3, 5, 0⟩ = .obj k := by
  refine ⟨by decide, ?_⟩
  exact (background_reserved_and_valid_pixels_decode).2.2 ⟨3, 5, 0⟩
    (by decide) (by decide)

/-! ### Basic lemmas about the association-list operations -/

theorem alookup_eq_none_iff {α β : Type} [DecidableEq α] (a : α)
    (l : List (α × β)) : alookup a l = none ↔ a ∉ l.map Prod.fst := by
  induction l with
  | nil => simp [alookup]
  | cons e rest ih =>
    obtain ⟨k, v⟩ := e
    by_cases hk : k = a
    · subst hk
      simp [alookup]
    · simp only [alookup, if_neg hk, ih, List.map_cons, List.mem_cons]
      constructor
      · intro h hmem
        rcases hmem with h1 | h2
        · exact hk h1.symm
        · exact h h2
      · intro h hmem
        exact h (Or.inr hmem)

theorem alookup_isSome_iff {α β : Type} [DecidableEq α] (a : α)
    (l : List (α × β)) : (alookup a l).isSome = true ↔ a ∈ l.map Prod.fst := by
  rw [← Decidable.not_iff_not, Option.not_isSome_iff_eq_none, alookup_eq_none_iff]

theorem alookup_mem {α β : Type} [DecidableEq α] {a : α} {v : β}
    {l : List (α × β)} (h : alookup a l = some v) : (a, v) ∈ l := by
  induction l with
  | nil => simp [alookup] at h
  | cons e rest ih =>
    obtain ⟨k, w⟩ := e
    by_cases hk : k = a
    · subst hk
      simp [alookup] at h
      rw [← h]
      exact List.mem_cons_self _ _
    · simp only [alookup, if_neg hk] at h
      exact List.mem_cons_of_mem _ (ih h)

theorem alookup_append {α β : Type} [DecidableEq α] (a : α)
    (l₁ l₂ : List (α × β)) :
    alookup a (l₁ ++ l₂) =
      match alookup a l₁ with
      | some v => some v
      | none => alookup a l₂ := by
  induction l₁ with
  | nil => simp [alookup]
  | cons e rest ih =>
    obtain ⟨k, v⟩ := e
    by_cases hk : k = a
    · simp [alookup, hk]
    · simp [alookup, hk, ih]

theorem alookup_bumpCount_self (k : ObjKey) (m : List (ObjKey × Nat)) :
    alookup k (bumpCount k m) = some ((alookup k m).getD 0 + 1) := by
  induction m with
  | nil => simp [bumpCount, alookup]
  | cons e rest ih =>
    obtain ⟨k', n⟩ := e
    by_cases hk : k' = k
    · subst hk
      simp [bumpCount, alookup]
    · simp [bumpCount, alookup, hk, ih]

theorem alookup_bumpCount_ne (k j : ObjKey) (m : List (ObjKey × Nat))
    (hjk : j ≠ k) : alookup j (bumpCount k m) = alookup j m := by
  have hkj : k ≠ j := Ne.symm hjk
  induction m with
  | nil => simp [bumpCount, alookup, hkj]
  | cons e rest ih =>
    obtain ⟨k', n⟩ := e
    by_cases hk : k' = k
    · subst hk
      simp [bumpCount, alookup, hkj]
    · simp [bumpCount, alookup, hk, ih]

theorem bumpCount_keys (k : ObjKey) (m : List (ObjKey × Nat)) :
    (bumpCount k m).map Prod.fst =
      if k ∈ m.map Prod.fst then m.map Prod.fst else m.map Prod.fst ++ [k] := by
  induction m with
  | nil => simp [bumpCount]
  | cons e rest ih =>
    obtain ⟨k', n⟩ := e
    by_cases hk : k' = k
    · subst hk
      simp [bumpCount]
    · have hkk' : k ≠ k' := fun h => hk h.symm
      simp only [bumpCount, if_neg hk, List.map_cons, ih, List.mem_cons, hkk',
        false_or]
      by_cases hmem : k ∈ rest.map Prod.fst
      · rw [if_pos hmem, if_pos hmem]
      · rw [if_neg hmem, if_neg hmem, List.cons_append]

theorem bumpCount_counts_pos (k : ObjKey) (m : List (ObjKey × Nat))
    (h : ∀ e ∈ m, 1 ≤ e.2) : ∀ e ∈ bumpCount k m, 1 ≤ e.2 := by
  induction m with
  | nil =>
    intro e he
    simp only [bumpCount, List.mem_singleton] at he
    subst he
    simp
  | cons e0 rest ih =>
    obtain ⟨k', n⟩ := e0
    intro e he
    by_cases hk : k' = k
    · subst hk
      simp only [bumpCount, if_true, eq_self_iff_true, List.mem_cons] at he
      rcases he with he | he
      · subst he
        simp
      · exact h e (List.mem_cons_of_mem _ he)
    · simp only [bumpCount, if_neg hk, List.mem_cons] at he
      rcases he with he | he
      · subst he
        exact h _ (List.mem_cons_self _ _)
      · exact ih (fun e' he' => h e' (List.mem_cons_of_mem _ he')) e he

/-! ### Projections of one scan step -/

theorem decodedKey?_eq_colorKey? (p : PixelAt) :
    decodedKey? p = colorKey? p.px := rfl

theorem decodableColor?_eq_none_iff (p : PixelAt) :
    decodableColor? p = none ↔ decodedKey? p = none := by
  unfold decodableColor? decodedKey? colorKey?
  cases decodePixel p.px <;> simp

theorem decodableColor?_of_key {p : PixelAt} {k : ObjKey}
    (h : decodedKey? p = some k) : decodableColor? p = some p.px := by
  unfold decodedKey? colorKey? at h
  unfold decodableColor?
  cases hd : decodePixel p.px <;> simp [hd] at h ⊢

theorem decodableColor?_spec {p : PixelAt} {c : Pixel}
    (h : decodableColor? p = some c) :
    c = p.px ∧ ∃ k, colorKey? c = some k := by
  unfold decodableColor? at h
  cases hd : decodePixel p.px with
  | obj k =>
    rw [hd] at h
    simp at h
    subst h
    exact ⟨rfl, k, by simp [colorKey?, hd]⟩
  | background => rw [hd] at h; simp at h
  | invalid b => rw [hd] at h; simp at h

theorem scanStep_faults (s : ScanState) (p : PixelAt) :
    (scanStep s p).faults = s.faults ++ (faultOf? p).toList := by
  cases hd : decodePixel p.px with
  | background => simp [scanStep, faultOf?, hd]
  | invalid b => simp [scanStep, faultOf?, hd]
  | obj key =>
    simp only [scanStep, faultOf?, hd]
    cases hl : alookup p.px s.colorMap with
    | none => simp [hl]
    | some k0 =>
      simp only [hl]
      split <;> simp

theorem scanStep_objectPixels (s : ScanState) (p : PixelAt) :
    (scanStep s p).objectPixels =
      match decodedKey? p with
      | none => s.objectPixels
      | some k => bumpCount k s.objectPixels := by
  cases hd : decodePixel p.px with
  | background => simp [scanStep, decodedKey?, colorKey?, hd]
  | invalid b => simp [scanStep, decodedKey?, colorKey?, hd]
  | obj key =>
    simp only [scanStep, decodedKey?, colorKey?, hd]
    cases hl : alookup p.px s.colorMap with
    | none => simp [hl]
    | some k0 =>
      simp only [hl]
      split <;> simp

theorem scanStep_colorMap (s : ScanState) (p : PixelAt) :
    (scanStep s p).colorMap =
      match decodedKey? p with
      | none => s.colorMap
      | some key =>
        match alookup p.px s.colorMap with
        | some _ => s.colorMap
        | none => s.colorMap ++ [(p.px, key)] := by
  cases hd : decodePixel p.px with
  | background => simp [scanStep, decodedKey?, colorKey?, hd]
  | invalid b => simp [scanStep, decodedKey?, colorKey?, hd]
  | obj key =>
    simp only [scanStep, decodedKey?, colorKey?, hd]
    cases hl : alookup p.px s.colorMap with
    | none => simp [hl]
    | some k0 =>
      simp only [hl]
      split <;> simp

/-! ### Characterizations of the whole scan -/

theorem foldl_faults (ps : List PixelAt) :
    ∀ s : ScanState,
      (ps.foldl scanStep s).faults = s.faults ++ ps.filterMap faultOf? := by
  induction ps with
  | nil => intro s; simp
  | cons p rest ih =>
    intro s
    rw [List.foldl_cons, ih, scanStep_faults]
    cases hf : faultOf? p <;>
      simp [List.filterMap_cons, hf]

theorem scanMask_faults (ps : List PixelAt) :
    (scanMask ps).faults = ps.filterMap faultOf? := by
  rw [scanMask, foldl_faults]
  rfl

theorem foldl_core_congr (ps : List PixelAt) :
    ∀ s s' : ScanState, s.colorMap = s'.colorMap →
      s.objectPixels = s'.objectPixels →
      (ps.foldl scanStep s).colorMap = (ps.foldl scanStep s').colorMap ∧
      (ps.foldl scanStep s).objectPixels = (ps.foldl scanStep s').objectPixels := by
  induction ps with
  | nil => intro s s' hc ho; exact ⟨hc, ho⟩
  | cons p rest ih =>
    intro s s' hc ho
    rw [List.foldl_cons, List.foldl_cons]
    apply ih
    · rw [scanStep_colorMap, scanStep_colorMap, hc]
    · rw [scanStep_objectPixels, scanStep_objectPixels, ho]

theorem countOf_foldl (ps : List PixelAt) (k : ObjKey) :
    ∀ s : ScanState,
      countOf (ps.foldl scanStep s).objectPixels k =
        countOf s.objectPixels k +
          ps.countP (fun p => decodedKey? p == some k) := by
  induction ps with
  | nil => intro s; simp
  | cons p rest ih =>
    intro s
    rw [List.foldl_cons, ih, scanStep_objectPixels, List.countP_cons]
    cases hd : decodedKey? p with
    | none => simp [hd]
    | some k' =>
      by_cases hk : k' = k
      · subst hk
        simp only [hd, countOf, alookup_bumpCount_self]
        simp
        omega
      · simp only [hd, countOf, alookup_bumpCount_ne k' k _ (Ne.symm hk)]
        simp [hk]

theorem countOf_scanMask (ps : List PixelAt) (k : ObjKey) :
    countOf (scanMask ps).objectPixels k =
      ps.countP fun p => decodedKey? p == some k := by
  rw [scanMask, countOf_foldl]
  simp [countOf, initState, alookup]

theorem alookup_cons_self {α β : Type} [DecidableEq α] (a : α) (v : β)
    (l : List (α × β)) : alookup a ((a, v) :: l) = some v := by
  simp [alookup]

theorem alookup_cons_ne {α β : Type} [DecidableEq α] {a k : α} (v : β)
    (l : List (α × β)) (h : k ≠ a) : alookup a ((k, v) :: l) = alookup a l := by
  simp [alookup, h]

theorem alookup_colorMap_foldl (ps : List PixelAt) (c : Pixel) :
    ∀ s : ScanState,
      alookup c (ps.foldl scanStep s).colorMap =
        match alookup c s.colorMap with
        | some v => some v
        | none =>
          if c ∈ ps.filterMap decodableColor? then colorKey? c else none := by
  induction ps with
  | nil =>
    intro s
    simp only [List.foldl_nil, List.filterMap_nil, List.not_mem_nil, if_false]
    cases alookup c s.colorMap <;> rfl
  | cons p rest ih =>
    intro s
    rw [List.foldl_cons, ih, scanStep_colorMap]
    cases hd : decodedKey? p with
    | none =>
      have hdc : decodableColor? p = none := (decodableColor?_eq_none_iff p).mpr hd
      rw [List.filterMap_cons_none hdc]
    | some key =>
      have hdc : decodableColor? p = some p.px := decodableColor?_of_key hd
      have hck : colorKey? p.px = some key := hd
      rw [List.filterMap_cons_some hdc]
      cases hl : alookup p.px s.colorMap with
      | some v0 =>
        by_cases hcp : c = p.px
        · subst hcp
          rw [hl]
        · cases hl2 : alookup c s.colorMap with
          | some v => rfl
          | none => simp [List.mem_cons, hcp]
      | none =>
        rw [alookup_append]
        by_cases hcp : c = p.px
        · subst hcp
          rw [hl, alookup_cons_self]
          simp [hck]
        · rw [alookup_cons_ne _ _ (Ne.symm hcp)]
          cases hl2 : alookup c s.colorMap with
          | some v => rfl
          | none => simp [alookup, List.mem_cons, hcp]

theorem alookup_colorMap_scanMask (ps : List PixelAt) (c : Pixel) :
    alookup c (scanMask ps).colorMap =
      if c ∈ ps.filterMap decodableColor? then colorKey? c else none := by
  rw [scanMask, alookup_colorMap_foldl]
  rfl

theorem colorMap_keys_nodup (ps : List PixelAt) :
    ∀ s : ScanState, (maskColors s).Nodup →
      (maskColors (ps.foldl scanStep s)).Nodup := by
  induction ps with
  | nil => intro s hs; simpa using hs
  | cons p rest ih =>
    intro s hs
    rw [List.foldl_cons]
    apply ih
    unfold maskColors at hs ⊢
    rw [scanStep_colorMap]
    cases hd : decodedKey? p with
    | none => exact hs
    | some key =>
      cases hl : alookup p.px s.colorMap with
      | some v0 => exact hs
      | none =>
        rw [List.map_append]
        simp only [List.map_cons, List.map_nil]
        rw [List.nodup_append]
        refine ⟨hs, List.nodup_singleton _, ?_⟩
        intro a ha hb
        simp only [List.mem_singleton] at hb
        subst hb
        have := (alookup_eq_none_iff p.px s.colorMap).mp hl
        exact this ha

theorem objectPixels_keys_nodup (ps : List PixelAt) :
    ∀ s : ScanState, (objectKeys s).Nodup →
      (objectKeys (ps.foldl scanStep s)).Nodup := by
  induction ps with
  | nil => intro s hs; simpa using hs
  | cons p rest ih =>
    intro s hs
    rw [List.foldl_cons]
    apply ih
    unfold objectKeys at hs ⊢
    rw [scanStep_objectPixels]
    cases hd : decodedKey? p with
    | none => exact hs
    | some key =>
      rw [bumpCount_keys]
      by_cases hmem : key ∈ s.objectPixels.map Prod.fst
      · rw [if_pos hmem]; exact hs
      · rw [if_neg hmem, List.nodup_append]
        refine ⟨hs, List.nodup_singleton _, ?_⟩
        intro a ha hb
        simp only [List.mem_singleton] at hb
        subst hb
        exact hmem ha

theorem objectPixels_counts_pos (ps : List PixelAt) :
    ∀ s : ScanState, (∀ e ∈ s.objectPixels, 1 ≤ e.2) →
      ∀ e ∈ (ps.foldl scanStep s).objectPixels, 1 ≤ e.2 := by
  induction ps with
  | nil => intro s hs; simpa using hs
  | cons p rest ih =>
    intro s hs
    rw [List.foldl_cons]
    apply ih
    rw [scanStep_objectPixels]
    cases hd : decodedKey? p with
    | none => exact hs
    | some key => exact bumpCount_counts_pos key _ hs

theorem mem_maskColors_scanMask (ps : List PixelAt) (c : Pixel) :
    c ∈ maskColors (scanMask ps) ↔ c ∈ ps.filterMap decodableColor? := by
  unfold maskColors
  rw [← alookup_isSome_iff c (scanMask ps).colorMap, alookup_colorMap_scanMask]
  by_cases hmem : c ∈ ps.filterMap decodableColor?
  · rw [if_pos hmem]
    obtain ⟨p, hp, hpc⟩ := List.mem_filterMap.mp hmem
    obtain ⟨hc, k, hk⟩ := decodableColor?_spec hpc
    simp [hk, hmem]
  · rw [if_neg hmem]
    simp [hmem]

theorem mem_objectKeys_scanMask (ps : List PixelAt) (k : ObjKey) :
    k ∈ objectKeys (scanMask ps) ↔ k ∈ ps.filterMap decodedKey? := by
  have hpos : ∀ e ∈ (scanMask ps).objectPixels, 1 ≤ e.2 := by
    apply objectPixels_counts_pos
    intro e he
    simp [initState] at he
  constructor
  · intro hk
    have hs : (alookup k (scanMask ps).objectPixels).isSome = true :=
      (alookup_isSome_iff k _).mpr hk
    obtain ⟨n, hn⟩ := Option.isSome_iff_exists.mp hs
    have hcount : 0 < countOf (scanMask ps).objectPixels k := by
      have := hpos (k, n) (alookup_mem hn)
      simp only [countOf, hn, Option.getD_some]
      exact this
    rw [countOf_scanMask] at hcount
    obtain ⟨p, hp, hpk⟩ := List.countP_pos_iff.mp hcount
    rw [beq_iff_eq] at hpk
    exact List.mem_filterMap.mpr ⟨p, hp, hpk⟩
  · intro hk
    obtain ⟨p, hp, hpk⟩ := List.mem_filterMap.mp hk
    have hcount : 0 < countOf (scanMask ps).objectPixels k := by
      rw [countOf_scanMask]
      exact List.countP_pos_iff.mpr ⟨p, hp, by simp [hpk]⟩
    unfold objectKeys
    rw [← alookup_isSome_iff]
    cases hn : alookup k (scanMask ps).objectPixels with
    | none => simp [countOf, hn] at hcount
    | some n => simp

theorem maskColors_toFinset (ps : List PixelAt) :
    (maskColors (scanMask ps)).toFinset =
      (ps.filterMap decodableColor?).toFinset := by
  ext c
  simp [List.mem_toFinset, mem_maskColors_scanMask]

theorem objectKeys_toFinset (ps : List PixelAt) :
    (objectKeys (scanMask ps)).toFinset =
      (ps.filterMap decodedKey?).toFinset := by
  ext k
  simp [List.mem_toFinset, mem_objectKeys_scanMask]

theorem keys_toFinset_eq_image (ps : List PixelAt) :
    (ps.filterMap decodedKey?).toFinset =
      (ps.filterMap decodableColor?).toFinset.image totalColorKey := by
  ext k
  simp only [List.mem_toFinset, List.mem_filterMap, Finset.mem_image]
  constructor
  · rintro ⟨p, hp, hk⟩
    refine ⟨p.px, ⟨p, hp, decodableColor?_of_key hk⟩, ?_⟩
    rw [decodedKey?_eq_colorKey?] at hk
    simp [totalColorKey, hk]
  · rintro ⟨c, ⟨p, hp, hc⟩, hk⟩
    obtain ⟨hcp, k', hk'⟩ := decodableColor?_spec hc
    subst hcp
    refine ⟨p, hp, ?_⟩
    rw [decodedKey?_eq_colorKey?, hk']
    rw [totalColorKey, hk'] at hk
    simp at hk
    rw [hk]

theorem colorMap_length_scanMask (ps : List PixelAt) :
    (scanMask ps).colorMap.length =
      (ps.filterMap decodableColor?).toFinset.card := by
  have hnodup : (maskColors (scanMask ps)).Nodup := by
    apply colorMap_keys_nodup
    simp [initState, maskColors]
  rw [← maskColors_toFinset, List.toFinset_card_of_nodup hnodup]
  simp [maskColors]

theorem objectPixels_length_scanMask (ps : List PixelAt) :
    (scanMask ps).objectPixels.length =
      (ps.filterMap decodedKey?).toFinset.card := by
  have hnodup : (objectKeys (scanMask ps)).Nodup := by
    apply objectPixels_keys_nodup
    simp [initState, objectKeys]
  rw [← objectKeys_toFinset, List.toFinset_card_of_nodup hnodup]
  simp [objectKeys]

/-! ### C1: the bijection check -/

/-- C1: after the scan has visited every pixel, the bijection check succeeds
exactly when the number of distinct recorded (decodable, non-background)
colors equals the number of distinct decoded object keys; and whenever two
pixels with distinct colors decode to the same object key, the check reports
a bijection violation (it is false). -/
theorem bijection_check_iff_and_collision (ps : List PixelAt) :
    (bijectionOK (scanMask ps) = true ↔
      (ps.filterMap decodableColor?).toFinset.card =
        (ps.filterMap decodedKey?).toFinset.card) ∧
    (∀ p q : PixelAt, p ∈ ps → q ∈ ps → p.px ≠ q.px →
      ∀ k : ObjKey, decodedKey? p = some k → decodedKey? q = some k →
        bijectionOK (scanMask ps) = false) := by
  have hlen : bijectionOK (scanMask ps) = true ↔
      (ps.filterMap decodableColor?).toFinset.card =
        (ps.filterMap decodedKey?).toFinset.card := by
    unfold bijectionOK
    rw [beq_iff_eq, colorMap_length_scanMask, objectPixels_length_scanMask]
  refine ⟨hlen, ?_⟩
  intro p q hp hq hne k hpk hqk
  by_contra hfalse
  have htrue : bijectionOK (scanMask ps) = true := by
    cases hbool : bijectionOK (scanMask ps)
    · exact absurd hbool hfalse
    · rfl
  have hcard := hlen.mp htrue
  rw [keys_toFinset_eq_image] at hcard
  have hinj : Set.InjOn totalColorKey
      ((ps.filterMap decodableColor?).toFinset : Set Pixel) :=
    Finset.injOn_of_card_image_eq hcard.symm
  have hpmem : p.px ∈ (ps.filterMap decodableColor?).toFinset := by
    rw [List.mem_toFinset]
    exact List.mem_filterMap.mpr ⟨p, hp, decodableColor?_of_key hpk⟩
  have hqmem : q.px ∈ (ps.filterMap decodableColor?).toFinset := by
    rw [List.mem_toFinset]
    exact List.mem_filterMap.mpr ⟨q, hq, decodableColor?_of_key hqk⟩
  have heq : totalColorKey p.px = totalColorKey q.px := by
    rw [decodedKey?_eq_colorKey?] at hpk hqk
    simp [totalColorKey, hpk, hqk]
  exact hne (hinj (Finset.mem_coe.mpr hpmem) (Finset.mem_coe.mpr hqmem) heq)

/-- Witness for C1: on `bijPixels` the two colors `(3,5,0)` and `(3,5,7)`
both decode to `(peduncle, 5)` and the bijection check fails. -/
theorem bijection_check_witness :
    bijectionOK (scanMask bijPixels) = false :=
  (bijection_check_iff_and_collision bijPixels).2
    ⟨0, 0, ⟨3, 5, 0⟩⟩ ⟨1, 0, ⟨3, 5, 7⟩⟩ (by decide) (by decide) (by decide)
    (ObjType.peduncle, 5) (by decide) (by decide)

/-! ### C6: decode faults are non-fatal -/

/-- C6: a pixel whose category channel lies outside `{0,1,2,3}` produces a
decode-fault report carrying its coordinates and channel value, appended in
place to the accumulated fault reports; it contributes to no color binding
and no pixel count, and the scan continues over the remaining pixels. -/
theorem decode_fault_nonfatal (l1 l2 : List PixelAt) (p : PixelAt)
    (hb : p.px.b ≠ 0 ∧ p.px.b ≠ 1 ∧ p.px.b ≠ 2 ∧ p.px.b ≠ 3) :
    (scanMask (l1 ++ p :: l2)).faults =
      l1.filterMap faultOf? ++ (p.x, p.y, p.px.b) :: l2.filterMap faultOf? ∧
    (scanMask (l1 ++ p :: l2)).colorMap = (scanMask (l1 ++ l2)).colorMap ∧
    (scanMask (l1 ++ p :: l2)).objectPixels =
      (scanMask (l1 ++ l2)).objectPixels ∧
    decodedKey? p = none := by
  have hbg : ¬(p.px.b = 0 ∧ p.px.g = 0 ∧ p.px.r = 0) := fun hc => hb.1 hc.1
  have hdec : decodePixel p.px = .invalid p.px.b := by
    unfold decodePixel
    rw [if_neg hbg, if_neg hb.2.2.2, if_neg hb.1, if_neg hb.2.1,
      if_neg hb.2.2.1]
  have hfault : faultOf? p = some (p.x, p.y, p.px.b) := by
    unfold faultOf?
    rw [hdec]
  have hkey : decodedKey? p = none := by
    unfold decodedKey? colorKey?
    rw [hdec]
  have hc : (scanStep (List.foldl scanStep initState l1) p).colorMap =
      (List.foldl scanStep initState l1).colorMap := by
    rw [scanStep_colorMap, hkey]
  have ho : (scanStep (List.foldl scanStep initState l1) p).objectPixels =
      (List.foldl scanStep initState l1).objectPixels := by
    rw [scanStep_objectPixels, hkey]
  have hcongr := foldl_core_congr l2 _ _ hc ho
  refine ⟨?_, ?_, ?_, hkey⟩
  · rw [scanMask_faults, List.filterMap_append, List.filterMap_cons_some hfault]
  · rw [scanMask, scanMask, List.foldl_append, List.foldl_append,
      List.foldl_cons]
    exact hcongr.1
  · rw [scanMask, scanMask, List.foldl_append, List.foldl_append,
      List.foldl_cons]
    exact hcongr.2

/-- Witness for C6: the single invalid pixel `faultPixel` (B = 7 at (2,3))
yields exactly the fault report `(2, 3, 7)`. -/
theorem decode_fault_witness :
    (faultPixel.px.b ≠ 0 ∧ faultPixel.px.b ≠ 1 ∧ faultPixel.px.b ≠ 2 ∧
      faultPixel.px.b ≠ 3) ∧
    (scanMask ([] ++ faultPixel :: [])).faults =
      List.filterMap faultOf? [] ++
        (faultPixel.x, faultPixel.y, faultPixel.px.b) ::
          List.filterMap faultOf? [] :=
  ⟨by decide, (decode_fault_nonfatal [] [] faultPixel (by decide)).1⟩

/-! ### C8: single pass, order independence -/

theorem maskPixels_mem_y {mask : Nat → Nat → Pixel} {height width : Nat}
    {p : PixelAt} (hp : p ∈ maskPixels mask height width) : p.y < height := by
  unfold maskPixels at hp
  obtain ⟨yv, hy, hp2⟩ := List.mem_flatMap.mp hp
  obtain ⟨xv, hx, rfl⟩ := List.mem_map.mp hp2
  exact List.mem_range.mp hy

theorem maskPixels_countP_coord (mask : Nat → Nat → Pixel) :
    ∀ height width x y, x < width → y < height →
      (maskPixels mask height width).countP
        (fun p => p.x == x && p.y == y) = 1 := by
  intro height
  induction height with
  | zero =>
    intro w x y hx hy
    omega
  | succ h ih =>
    intro w x y hx hy
    have hsplit : maskPixels mask (h + 1) w =
        maskPixels mask h w ++
          (List.range w).map (fun xv => (⟨xv, h, mask h xv⟩ : PixelAt)) := by
      unfold maskPixels
      rw [List.range_succ, List.flatMap_append]
      simp
    rw [hsplit, List.countP_append]
    by_cases hyh : y = h
    · subst hyh
      have h0 : (maskPixels mask y w).countP
          (fun p => p.x == x && p.y == y) = 0 := by
        rw [List.countP_eq_zero]
        intro p hp
        have hlt := maskPixels_mem_y hp
        simp only [Bool.and_eq_true, beq_iff_eq]
        rintro ⟨-, h2⟩
        omega
      rw [h0, List.countP_map]
      have hrow : ((List.range w).countP
            ((fun p => p.x == x && p.y == y) ∘
              fun xv => (⟨xv, y, mask y xv⟩ : PixelAt))) =
          (List.range w).count x := by
        apply List.countP_congr
        intro xv hxv
        simp [Function.comp]
      rw [hrow, List.count_eq_one_of_mem (List.nodup_range w)
        (List.mem_range.mpr hx)]
    · have hy' : y < h := by omega
      rw [ih w x y hx hy']
      have h0 : (((List.range w).map
            (fun xv => (⟨xv, h, mask h xv⟩ : PixelAt))).countP
          (fun p => p.x == x && p.y == y)) = 0 := by
        rw [List.countP_eq_zero]
        intro p hp
        obtain ⟨xv, hxv, rfl⟩ := List.mem_map.mp hp
        simp only [Bool.and_eq_true, beq_iff_eq]
        rintro ⟨-, h2⟩
        exact hyh h2.symm
      rw [h0]

/-- C8: the row-major scan enumerates each coordinate exactly once, and the
scan result is independent of the pixel visit order: the per-object pixel
counts, the set of distinct recorded colors, and even the first-seen
color-to-key binding (which is determined by the color alone, so a bijective
color-to-key mapping in particular yields a fully order-independent result)
agree for any two visit orders of the same pixels. -/
theorem scan_single_pass_order_independent :
    (∀ (mask : Nat → Nat → Pixel) (height width x y : Nat),
      x < width → y < height →
      (maskPixels mask height width).countP
        (fun p => p.x == x && p.y == y) = 1) ∧
    (∀ ps₁ ps₂ : List PixelAt, ps₁.Perm ps₂ →
      (∀ k, countOf (scanMask ps₁).objectPixels k =
        countOf (scanMask ps₂).objectPixels k) ∧
      (maskColors (scanMask ps₁)).toFinset =
        (maskColors (scanMask ps₂)).toFinset ∧
      (∀ c, alookup c (scanMask ps₁).colorMap =
        alookup c (scanMask ps₂).colorMap)) := by
  constructor
  · intro mask height width x y hx hy
    exact maskPixels_countP_coord mask height width x y hx hy
  · intro ps₁ ps₂ hperm
    have hmem : ∀ c : Pixel, c ∈ ps₁.filterMap decodableColor? ↔
        c ∈ ps₂.filterMap decodableColor? := by
      intro c
      exact (hperm.filterMap _).mem_iff
    refine ⟨?_, ?_, ?_⟩
    · intro k
      rw [countOf_scanMask, countOf_scanMask]
      exact hperm.countP_eq _
    · rw [maskColors_toFinset, maskColors_toFinset]
      exact List.toFinset_eq_of_perm _ _ (hperm.filterMap _)
    · intro c
      rw [alookup_colorMap_scanMask, alookup_colorMap_scanMask]
      by_cases hm : c ∈ ps₁.filterMap decodableColor?
      · rw [if_pos hm, if_pos ((hmem c).mp hm)]
      · rw [if_neg hm, if_neg (fun hc => hm ((hmem c).mpr hc))]

/-- Witness for C8: a 2×2 enumeration visits (0,0) once, and the two visit
orders of `permPixelsA`/`permPixelsB` agree on the count of
`(peduncle, 5)`. -/
theorem scan_order_witness :
    (0 : Nat) < 2 ∧
    (maskPixels (fun _ _ => ⟨0, 0, 0⟩) 2 2).countP
      (fun p => p.x == 0 && p.y == 0) = 1 ∧
    countOf (scanMask permPixelsA).objectPixels (ObjType.peduncle, 5) =
      countOf (scanMask permPixelsB).objectPixels (ObjType.peduncle, 5) :=
  ⟨by decide,
    scan_single_pass_order_independent.1 (fun _ _ => ⟨0, 0, 0⟩) 2 2 0 0
      (by decide) (by decide),
    ((scan_single_pass_order_independent.2 permPixelsA permPixelsB
      (List.Perm.swap _ _ _)).1 (ObjType.peduncle, 5))⟩

/-! ### C4: the id-offset check -/

theorem idOffsetCheck_spec (m : List (ObjKey × Nat)) :
    (idOffsetCheck m = some true ↔
      ((∃ mn, (allIds m).min? = some mn ∧ 1 ≤ mn) ∧
        ∀ k ∈ m.map Prod.fst, k.2 ≠ 0)) ∧
    (∀ k : ObjKey, k ∈ m.map Prod.fst → k.2 = 0 →
      idOffsetCheck m = some false) := by
  constructor
  · unfold idOffsetCheck
    cases hm : (allIds m).min? with
    | none => simp
    | some mn =>
      simp only [Option.some.injEq]
      constructor
      · intro h
        rw [Bool.and_eq_true] at h
        obtain ⟨h1, h2⟩ := h
        simp only [Bool.not_eq_true', List.any_eq_false, beq_iff_eq] at h2
        refine ⟨⟨mn, rfl, of_decide_eq_true h1⟩, ?_⟩
        intro k hk hk0
        obtain ⟨e, he, rfl⟩ := List.mem_map.mp hk
        exact h2 e he hk0
      · rintro ⟨⟨mn', hmn', h1⟩, h2⟩
        obtain rfl : mn = mn' := hmn'
        rw [Bool.and_eq_true]
        refine ⟨decide_eq_true h1, ?_⟩
        simp only [Bool.not_eq_true', List.any_eq_false, beq_iff_eq]
        intro e he
        exact h2 e.1 (List.mem_map.mpr ⟨e, he, rfl⟩)
  · intro k hk hk0
    obtain ⟨e, he, rfl⟩ := List.mem_map.mp hk
    have hid : e.1.2 ∈ allIds m := List.mem_map.mpr ⟨e, he, rfl⟩
    have hne : allIds m ≠ [] := List.ne_nil_of_mem hid
    cases hm : (allIds m).min? with
    | none => exact absurd (List.min?_eq_none_iff.mp hm) hne
    | some mn =>
      unfold idOffsetCheck
      rw [hm]
      have hany : (m.any fun e => e.1.2 == 0) = true :=
        List.any_eq_true.mpr ⟨e, he, by simp [hk0]⟩
      simp [hany]

/-- C4: for a scanned mask, the id-offset check passes exactly when the
minimum decoded instance id exists and is at least 1 and no decoded object
key carries instance id 0; any decoded key with instance id 0 makes the
check fail. -/
theorem id_offset_check (ps : List PixelAt) :
    (idOffsetCheck (scanMask ps).objectPixels = some true ↔
      ((∃ mn, (allIds (scanMask ps).objectPixels).min? = some mn ∧ 1 ≤ mn) ∧
        ∀ k ∈ objectKeys (scanMask ps), k.2 ≠ 0)) ∧
    (∀ k : ObjKey, k ∈ objectKeys (scanMask ps) → k.2 = 0 →
      idOffsetCheck (scanMask ps).objectPixels = some false) := by
  have h := idOffsetCheck_spec (scanMask ps).objectPixels
  unfold objectKeys
  exact h

/-- Witness for C4: the mask `zeroIdPixels` decodes `(unripe, 0)`, and the
id-offset check reports failure. -/
theorem id_offset_witness :
    (ObjType.unripe, 0) ∈ objectKeys (scanMask zeroIdPixels) ∧
    idOffsetCheck (scanMask zeroIdPixels).objectPixels = some false :=
  ⟨by decide,
    (id_offset_check zeroIdPixels).2 (ObjType.unripe, 0) (by decide) rfl⟩

/-! ### C10: an all-background mask aborts the run -/

/-- C10: if every pixel of the mask is background `(0,0,0)` the
comprehensive checker aborts (the `min` of the empty id collection raises)
before producing the final summary; more precisely the full report is
produced if and only if some pixel decodes to an object key. -/
theorem empty_mask_aborts (ps : List PixelAt) (anns : List Ann) :
    ((∀ p ∈ ps, p.px = ⟨0, 0, 0⟩) → runChecks ps anns = none) ∧
    ((runChecks ps anns).isSome = true ↔
      ∃ p ∈ ps, (decodedKey? p).isSome = true) := by
  have h1 : (runChecks ps anns).isSome = true ↔
      (idOffsetCheck (scanMask ps).objectPixels).isSome = true := by
    cases h : idOffsetCheck (scanMask ps).objectPixels <;>
      simp [runChecks, h]
  have h2 : (idOffsetCheck (scanMask ps).objectPixels).isSome = true ↔
      (scanMask ps).objectPixels ≠ [] := by
    unfold idOffsetCheck
    cases hm : (allIds (scanMask ps).objectPixels).min? with
    | none =>
      rw [List.min?_eq_none_iff] at hm
      unfold allIds at hm
      rw [List.map_eq_nil_iff] at hm
      simp [hm]
    | some mn =>
      simp only [Option.isSome_some, true_iff]
      intro hnil
      rw [show allIds (scanMask ps).objectPixels = [] by
        unfold allIds; rw [hnil]; rfl] at hm
      simp at hm
  have h3 : (scanMask ps).objectPixels ≠ [] ↔
      ∃ p ∈ ps, (decodedKey? p).isSome = true := by
    constructor
    · intro hne
      obtain ⟨e, he⟩ := List.exists_mem_of_ne_nil _ hne
      have hk : e.1 ∈ objectKeys (scanMask ps) := by
        unfold objectKeys
        exact List.mem_map.mpr ⟨e, he, rfl⟩
      rw [mem_objectKeys_scanMask] at hk
      obtain ⟨p, hp, hpk⟩ := List.mem_filterMap.mp hk
      exact ⟨p, hp, by simp [hpk]⟩
    · rintro ⟨p, hp, hpk⟩
      obtain ⟨k, hk⟩ := Option.isSome_iff_exists.mp hpk
      have hmem : k ∈ objectKeys (scanMask ps) :=
        (mem_objectKeys_scanMask ps k).mpr (List.mem_filterMap.mpr ⟨p, hp, hk⟩)
      intro hnil
      unfold objectKeys at hmem
      rw [hnil] at hmem
      simp at hmem
  refine ⟨?_, h1.trans (h2.trans h3)⟩
  intro hall
  cases hrc : runChecks ps anns with
  | none => rfl
  | some v =>
    exfalso
    have hsome : (runChecks ps anns).isSome = true := by
      rw [hrc]
      rfl
    obtain ⟨p, hp, hpk⟩ := (h1.trans (h2.trans h3)).mp hsome
    have : decodedKey? p = none := by
      rw [decodedKey?_eq_colorKey?, hall p hp]
      rfl
    rw [this] at hpk
    simp at hpk

/-- Witness for C10: the single-background-pixel mask aborts the checker. -/
theorem empty_mask_witness :
    runChecks bgPixels [] = none :=
  (empty_mask_aborts bgPixels []).1 (by decide)

/-! ### C2: the threshold check -/

/-- C2 counterexample: with an empty annotation list the code's threshold
check passes (it only inspects annotation areas), although the scanned mask
holds the object `(ripe, 1)` with 20 ≥ 15 pixels which is absent from the
annotations — the claimed three-part consistency condition is violated, so
the check does not pass "exactly when" that condition holds. -/
theorem threshold_check_counterexample :
    thresholdCheckPassed [] = true ∧
    countOf (scanMask ripe20Pixels).objectPixels (ObjType.ripe, 1) = 20 ∧
    ¬claimedThresholdConsistent (scanMask ripe20Pixels) [] := by
  refine ⟨rfl, by decide, ?_⟩
  intro h
  have hk : (ObjType.ripe, 1) ∈ objectKeys (scanMask ripe20Pixels) := by
    decide
  have hc : 15 ≤ countOf (scanMask ripe20Pixels).objectPixels
      (ObjType.ripe, 1) := by
    decide
  have hmem := h.2.2 _ hk hc
  simp [jsonObjects] at hmem

/-- C2 amended: the threshold check of the comprehensive checker passes
exactly when every annotation record has area ≥ 15; each sub-threshold
record is reported as a violation naming its instance id, category id and
area. (Mask objects below threshold that are absent from the annotations are
only listed informationally; presence of at-threshold mask objects in the
annotation file is not part of the pass/fail decision.) -/
theorem threshold_check_amended (anns : List Ann) :
    (thresholdCheckPassed anns = true ↔ ∀ a ∈ anns, 15 ≤ a.area) ∧
    (∀ a ∈ anns, a.area < 15 →
      (a.instance_id, a.category_id, a.area) ∈ thresholdViolations anns) := by
  constructor
  · unfold thresholdCheckPassed
    rw [beq_iff_eq, List.length_eq_zero]
    unfold thresholdViolations
    rw [List.filterMap_eq_nil_iff]
    constructor
    · intro h a ha
      have := h a ha
      by_contra hlt
      push_neg at hlt
      rw [if_pos hlt] at this
      simp at this
    · intro h a ha
      rw [if_neg (by have := h a ha; omega)]
  · intro a ha hlt
    unfold thresholdViolations
    exact List.mem_filterMap.mpr ⟨a, ha, by rw [if_pos hlt]⟩

/-- Witness for C2's amended theorem: the sub-threshold record `lowAreaAnn`
is reported with its instance id, category id and area. -/
theorem threshold_check_amended_witness :
    ((2 : Nat), (0 : Nat), (10 : Nat)) ∈ thresholdViolations [lowAreaAnn] :=
  (threshold_check_amended [lowAreaAnn]).2 lowAreaAnn (by decide) (by decide)

/-! ### C3: the pairing checks -/

theorem getLast?_mem {α : Type} {l : List α} {a : α}
    (h : l.getLast? = some a) : a ∈ l := by
  obtain ⟨hne, heq⟩ := List.mem_getLast?_eq_getLast (show a ∈ l.getLast? by
    rw [h]; rfl)
  rw [heq]
  exact List.getLast_mem hne

/-- C3 counterexample: in `pairScenario` both records belong to image 1, the
strawberry has `parent_id = 7` and the peduncle has `instance_id = 7`, yet
the pairing count of the comprehensive checker (which groups records by
`instance_id` and never reads `parent_id`) reports zero paired objects and
one strawberry-only object — not the one pair the claim requires. -/
theorem pairing_counterexample :
    (pairScenario.map fun a => a.image_id) = [1, 1] ∧
    (∃ a ∈ pairScenario, isStrawberryCat a.category_id = true ∧
      a.parent_id = 7) ∧
    (∃ b ∈ pairScenario, b.category_id = 3 ∧ b.instance_id = 7) ∧
    pairedCount pairScenario = 0 ∧
    strawberryOnlyCount pairScenario = 1 := by
  decide

/-- C3 amended: `find_matching_pairs` pairs a strawberry record with a
peduncle exactly when some peduncle record of the same image has
`instance_id` equal to the strawberry's `parent_id` (so the claimed
round-trip holds for it: the parent-7/instance-7 scenario yields one pair,
and removing the peduncle yields zero). The pairing statistic of the
comprehensive checker instead counts instance ids whose records include both
a strawberry and a peduncle category, ignoring `parent_id`: it reports zero
pairs on the scenario and one pair only when the strawberry's own
`instance_id` coincides with the peduncle's. -/
theorem pairing_amended :
    (∀ (annotations : List Ann) (image_id : Nat) (s : Ann),
      (∃ p, (s, p) ∈ find_matching_pairs annotations image_id) ↔
      (s ∈ strawberriesOf annotations image_id ∧
        ∃ p ∈ pedunclesOf annotations image_id,
          p.instance_id = s.parent_id)) ∧
    (find_matching_pairs pairScenario 1).length = 1 ∧
    (find_matching_pairs pairScenarioNoPed 1).length = 0 ∧
    pairedCount pairScenario = 0 ∧
    pairedCount pairScenarioShared = 1 := by
  refine ⟨?_, by decide, by decide, by decide, by decide⟩
  intro annotations image_id s
  unfold find_matching_pairs
  constructor
  · rintro ⟨p, hp⟩
    obtain ⟨s', hs', hmap⟩ := List.mem_filterMap.mp hp
    rw [Option.map_eq_some'] at hmap
    obtain ⟨p', hp', heq⟩ := hmap
    rw [Prod.mk.injEq] at heq
    obtain ⟨h1, h2⟩ := heq
    have hmemf := getLast?_mem hp'
    have hfil := List.mem_filter.mp hmemf
    refine ⟨h1 ▸ hs', p', hfil.1, ?_⟩
    have hid := hfil.2
    rw [beq_iff_eq] at hid
    rw [hid, h1]
  · rintro ⟨hstraw, p, hped, hpid⟩
    have hne : (pedunclesOf annotations image_id).filter
        (fun q => q.instance_id == s.parent_id) ≠ [] := by
      intro hnil
      have hmem : p ∈ (pedunclesOf annotations image_id).filter
          (fun q => q.instance_id == s.parent_id) :=
        List.mem_filter.mpr ⟨hped, by simp [hpid]⟩
      rw [hnil] at hmem
      simp at hmem
    have hsome : (pedLookup (pedunclesOf annotations image_id)
        s.parent_id).isSome = true := by
      unfold pedLookup
      rw [Option.isSome_iff_ne_none]
      intro hnone
      exact hne (List.getLast?_eq_none_iff.mp hnone)
    obtain ⟨q, hq⟩ := Option.isSome_iff_exists.mp hsome
    refine ⟨q, List.mem_filterMap.mpr ⟨s, hstraw, ?_⟩⟩
    rw [hq]
    rfl

/-- Witness for C3's amended theorem: in `pairScenario` the strawberry is
paired by `find_matching_pairs` because the peduncle with instance id 7
exists. -/
theorem pairing_amended_witness :
    ∃ p, ((⟨1, 1, 0, 20, 7⟩ : Ann), p) ∈ find_matching_pairs pairScenario 1 :=
  ((pairing_amended.1 pairScenario 1 ⟨1, 1, 0, 20, 7⟩).mpr
    ⟨by decide, ⟨1, 7, 3, 20, 0⟩, by decide, by decide⟩)

/-! ### C7: the shard reconciler -/

theorem countError_eq_nil_iff (n : Nat) (master : List (String × DepthRange)) :
    countError n master = [] ↔ n = master.length := by
  unfold countError
  by_cases h : n = master.length
  · simp [h]
  · simp [h]

theorem shardErrors_eq_nil_iff (shards master : List (String × DepthRange)) :
    shardErrors shards master = [] ↔
      ∀ sh ∈ shards, ∃ m, alookup sh.1 master = some m ∧
        |sh.2.min_meters - m.min_meters| ≤ tolerance := by
  unfold shardErrors
  rw [List.flatMap_eq_nil_iff]
  constructor
  · intro h sh hsh
    have hnil := h sh hsh
    cases hl : alookup sh.1 master with
    | none =>
      simp only [hl] at hnil
      simp at hnil
    | some m =>
      simp only [hl] at hnil
      refine ⟨m, rfl, ?_⟩
      by_contra habs
      push_neg at habs
      rw [if_pos habs] at hnil
      simp at hnil
  · intro h sh hsh
    obtain ⟨m, hm, hle⟩ := h sh hsh
    simp only [hm]
    rw [if_neg (not_lt.mpr hle)]

theorem masterErrors_eq_nil_iff (shards master : List (String × DepthRange)) :
    masterErrors shards master = [] ↔
      ∀ e ∈ master, e.1 ∈ shards.map Prod.fst := by
  unfold masterErrors
  rw [List.filterMap_eq_nil_iff]
  constructor
  · intro h e he
    have hnone := h e he
    by_contra hmem
    rw [if_neg hmem] at hnone
    simp at hnone
  · intro h e he
    rw [if_pos (h e he)]

/-- C7 counterexample: the reconciler reports zero errors on
`shardsMinOnly`/`masterMinOnly` although the shard's `max_meters` (5)
differs from the master's (999) far beyond the tolerance — only `min_meters`
is compared, so "zero errors exactly when minimum AND maximum depth match"
is false. -/
theorem reconciler_counterexample :
    verifyIncremental shardsMinOnly masterMinOnly 1 = [] ∧
    claimedReconcilerOK shardsMinOnly masterMinOnly 1 = false := by
  have hl : alookup (α := String) (β := DepthRange) "00001.png"
      masterMinOnly = some ⟨1, 999⟩ := by
    unfold masterMinOnly alookup
    rw [if_pos rfl]
  constructor
  · unfold verifyIncremental
    rw [List.append_eq_nil, List.append_eq_nil]
    refine ⟨⟨(countError_eq_nil_iff _ _).mpr rfl,
      (shardErrors_eq_nil_iff _ _).mpr ?_⟩,
      (masterErrors_eq_nil_iff _ _).mpr ?_⟩
    · intro sh hsh
      have hsh' : sh = ("00001.png", (⟨1, 5⟩ : DepthRange)) := by
        simpa [shardsMinOnly] using hsh
      subst hsh'
      refine ⟨⟨1, 999⟩, hl, ?_⟩
      norm_num [tolerance]
    · intro e he
      have he' : e = ("00001.png", (⟨1, 999⟩ : DepthRange)) := by
        simpa [masterMinOnly] using he
      subst he'
      simp [shardsMinOnly]
  · rw [← Bool.not_eq_true]
    intro habs
    unfold claimedReconcilerOK at habs
    rw [Bool.and_eq_true, Bool.and_eq_true] at habs
    obtain ⟨⟨hall, -⟩, -⟩ := habs
    rw [List.all_eq_true] at hall
    have hone := hall ("00001.png", ⟨1, 5⟩) (by simp [shardsMinOnly])
    simp only [hl] at hone
    rw [Bool.and_eq_true] at hone
    have hmax := of_decide_eq_true hone.2
    norm_num [tolerance] at hmax

/-- C7 amended: the reconciler reports zero errors exactly when every shard
has a master entry whose `min_meters` (only; `max_meters` is never compared)
matches within the 1e-4 tolerance, every master entry has a shard, and the
annotation image count equals the master entry count; moreover every master
entry lacking a shard contributes its own error to the list regardless of
the other checks (the reconciler never stops at the first mismatch). -/
theorem reconciler_zero_errors (shards master : List (String × DepthRange))
    (annImages : Nat) :
    (verifyIncremental shards master annImages = [] ↔
      ((∀ sh ∈ shards, ∃ m, alookup sh.1 master = some m ∧
          |sh.2.min_meters - m.min_meters| ≤ tolerance) ∧
        (∀ e ∈ master, e.1 ∈ shards.map Prod.fst) ∧
        annImages = master.length)) ∧
    (∀ e ∈ master, e.1 ∉ shards.map Prod.fst →
      VerifyError.missingShard e.1 ∈ verifyIncremental shards master annImages) := by
  constructor
  · unfold verifyIncremental
    rw [List.append_eq_nil, List.append_eq_nil, countError_eq_nil_iff,
      shardErrors_eq_nil_iff, masterErrors_eq_nil_iff]
    exact ⟨fun ⟨⟨a, b⟩, c⟩ => ⟨b, c, a⟩, fun ⟨b, c, a⟩ => ⟨⟨a, b⟩, c⟩⟩
  · intro e he hnot
    unfold verifyIncremental
    apply List.mem_append_right
    unfold masterErrors
    exact List.mem_filterMap.mpr ⟨e, he, by rw [if_neg hnot]⟩

/-- Witness for C7's amended theorem: the master entry `00002.png` with no
shard produces its missing-shard error. -/
theorem reconciler_zero_errors_witness :
    VerifyError.missingShard "00002.png" ∈
      verifyIncremental [] masterNoShard 0 :=
  (reconciler_zero_errors [] masterNoShard 0).2 ("00002.png", ⟨1, 1⟩)
    (List.mem_singleton.mpr rfl) (by simp)

/-! ### C9: archive split and join -/

theorem foldl_append_acc (parts : List (List Byte)) :
    ∀ acc : List Byte,
      parts.foldl (· ++ ·) acc = acc ++ parts.foldl (· ++ ·) [] := by
  induction parts with
  | nil =>
    intro acc
    simp
  | cons p rest ih =>
    intro acc
    rw [List.foldl_cons, List.foldl_cons, ih, ih ([] ++ p)]
    simp

theorem joinParts_cons (part : List Byte) (parts : List (List Byte)) :
    joinParts (part :: parts) = part ++ joinParts parts := by
  unfold joinParts
  rw [List.foldl_cons, foldl_append_acc]
  simp

theorem splitFile_join (chunkSize : Nat) (h : 0 < chunkSize) :
    ∀ n (data : List Byte), data.length ≤ n →
      joinParts (splitFile chunkSize data) = data := by
  intro n
  induction n with
  | zero =>
    intro data hlen
    have hd : data = [] := List.eq_nil_of_length_eq_zero (by omega)
    subst hd
    unfold splitFile
    rw [dif_pos (Or.inr rfl)]
    rfl
  | succ n ih =>
    intro data hlen
    by_cases hd : data = []
    · subst hd
      unfold splitFile
      rw [dif_pos (Or.inr rfl)]
      rfl
    · unfold splitFile
      rw [dif_neg (by push_neg; exact ⟨by omega, hd⟩)]
      rw [joinParts_cons,
        ih (data.drop chunkSize) (by rw [List.length_drop]; omega)]
      exact List.take_append_drop chunkSize data

theorem splitFile_parts_length (chunkSize : Nat) (h : 0 < chunkSize) :
    ∀ n (data : List Byte), data.length ≤ n →
      ∀ part ∈ (splitFile chunkSize data).dropLast,
        part.length = chunkSize := by
  intro n
  induction n with
  | zero =>
    intro data hlen part hpart
    have hd : data = [] := List.eq_nil_of_length_eq_zero (by omega)
    subst hd
    unfold splitFile at hpart
    rw [dif_pos (Or.inr rfl)] at hpart
    simp at hpart
  | succ n ih =>
    intro data hlen part hpart
    by_cases hd : data = []
    · subst hd
      unfold splitFile at hpart
      rw [dif_pos (Or.inr rfl)] at hpart
      simp at hpart
    · unfold splitFile at hpart
      rw [dif_neg (by push_neg; exact ⟨by omega, hd⟩)] at hpart
      by_cases hrest : splitFile chunkSize (data.drop chunkSize) = []
      · rw [hrest] at hpart
        simp at hpart
      · rw [List.dropLast_cons_of_ne_nil hrest] at hpart
        rcases List.mem_cons.mp hpart with hpart | hpart
        · subst hpart
          have hlen2 : chunkSize ≤ data.length := by
            by_contra hc
            push_neg at hc
            have hdrop : data.drop chunkSize = [] :=
              List.drop_eq_nil_of_le (by omega)
            rw [hdrop] at hrest
            apply hrest
            unfold splitFile
            rw [dif_pos (Or.inr rfl)]
          rw [List.length_take]
          omega
        · exact ih (data.drop chunkSize)
            (by rw [List.length_drop]; omega) part hpart

/-- C9: splitting a byte sequence into consecutive fixed-size parts (each
part except possibly the last holding exactly `chunkSize` bytes) and
concatenating the parts back in ascending part order reproduces the original
byte sequence. -/
theorem split_join_roundtrip (chunkSize : Nat) (data : List Byte)
    (h : 0 < chunkSize) :
    joinParts (splitFile chunkSize data) = data ∧
    ∀ part ∈ (splitFile chunkSize data).dropLast, part.length = chunkSize :=
  ⟨splitFile_join chunkSize h data.length data le_rfl,
    splitFile_parts_length chunkSize h data.length data le_rfl⟩

/-- Witness for C9 at chunk size 2 on the three-byte sequence `[1, 2, 3]`. -/
theorem split_join_witness :
    (0 : Nat) < 2 ∧ joinParts (splitFile 2 [1, 2, 3]) = [1, 2, 3] :=
  ⟨by decide, (split_join_roundtrip 2 [1, 2, 3] (by decide)).1⟩

end Strawberry
